import Mathlib

/-!
Verification of the post-price-concession analysis pipeline
(notebooks/diffable_python/Post price concession changes.py).

The pipeline is embedded shallowly:
* calendar months are integers (months since an arbitrary epoch; a
  pandas `DateOffset(months=k)` is `+ k`);
* dataframe float columns are `PFloat`, an exact model of the IEEE-754
  special values pandas uses (`NaN` encodes a missing value, signed
  infinities arise from division by zero), with rationals standing in
  for the finite doubles.  None of the verified claims depends on
  rounding, only on the propagation of the special values;
* each dataframe expression of the notebook becomes a Lean function on
  lists of rows, keeping the source column and variable names.
-/

/-- Model of a pandas float cell: `nan` (also the missing-value marker),
the two infinities, or a finite value (a rational stands in for the
double).  A single zero models IEEE +0; the pipeline never produces -0. -/
inductive PFloat where
  | nan : PFloat
  | inf : PFloat
  | neginf : PFloat
  | fin : ℚ → PFloat
deriving DecidableEq, Repr

namespace PFloat

/-- IEEE negation on the modelled values. -/
def neg : PFloat → PFloat
  | nan => nan
  | inf => neginf
  | neginf => inf
  | fin q => fin (-q)

/-- IEEE addition on the modelled values: `nan` absorbs, opposite
infinities give `nan`. -/
def add : PFloat → PFloat → PFloat
  | nan, _ => nan
  | _, nan => nan
  | inf, neginf => nan
  | neginf, inf => nan
  | inf, _ => inf
  | _, inf => inf
  | neginf, _ => neginf
  | _, neginf => neginf
  | fin a, fin b => fin (a + b)

/-- IEEE subtraction, defined as addition of the negation. -/
def sub (x y : PFloat) : PFloat := add x (neg y)

/-- IEEE multiplication: `nan` absorbs, infinity times zero is `nan`,
otherwise signs combine. -/
def mul : PFloat → PFloat → PFloat
  | nan, _ => nan
  | _, nan => nan
  | inf, inf => inf
  | inf, neginf => neginf
  | neginf, inf => neginf
  | neginf, neginf => inf
  | inf, fin b => if 0 < b then inf else if b < 0 then neginf else nan
  | fin a, inf => if 0 < a then inf else if a < 0 then neginf else nan
  | neginf, fin b => if 0 < b then neginf else if b < 0 then inf else nan
  | fin a, neginf => if 0 < a then neginf else if a < 0 then inf else nan
  | fin a, fin b => fin (a * b)

/-- IEEE division: `nan` absorbs, infinity over infinity is `nan`,
a nonzero finite value over (positive) zero is a signed infinity,
zero over zero is `nan`, a finite value over infinity is zero. -/
def div : PFloat → PFloat → PFloat
  | nan, _ => nan
  | _, nan => nan
  | inf, inf => nan
  | inf, neginf => nan
  | neginf, inf => nan
  | neginf, neginf => nan
  | inf, fin b => if b < 0 then neginf else inf
  | neginf, fin b => if b < 0 then inf else neginf
  | fin _, inf => fin 0
  | fin _, neginf => fin 0
  | fin a, fin b =>
      if b = 0 then (if 0 < a then inf else if a < 0 then neginf else nan)
      else fin (a / b)

instance : Neg PFloat := ⟨PFloat.neg⟩

instance : Add PFloat := ⟨PFloat.add⟩

instance : Sub PFloat := ⟨PFloat.sub⟩

instance : Mul PFloat := ⟨PFloat.mul⟩

instance : Div PFloat := ⟨PFloat.div⟩

end PFloat

/-! ### Concession Timeline Builder (notebook line 61)

`dates_cons_df = dates_df.set_index(['month','vmpp']).unstack().asfreq('MS')
   .fillna(0).stack().sort_index(level=1).reset_index()`

The input is the list of `(month, vmpp)` pairs returned by the
`SELECT DISTINCT` concession query (the `concession_bool` column is the
constant 1).  `unstack` raises `ValueError: Index contains duplicate
entries, cannot reshape` when the same `(month, vmpp)` pair occurs twice,
which the model renders as `none`.  Otherwise the result is, for every
observed vmpp, one row per calendar month of the global observed range,
with `concession_bool` false exactly on the filled-in cells. -/

/-- Row of the dense concession timeline: columns `vmpp`, `month`,
`concession_bool` of `dates_cons_df`. -/
structure TRow where
  vmpp : ℤ
  month : ℤ
  concession_bool : Bool
deriving DecidableEq, Repr

/-- Contiguous list of calendar months from `lo` to `hi`, the index
produced by `asfreq('MS')`. -/
def monthRange (lo hi : ℤ) : List ℤ :=
  (List.range (hi - lo + 1).toNat).map (fun i : ℕ => lo + (i : ℤ))

/-- Earliest month appearing in the raw concession rows. -/
def minMonthIn (rows : List (ℤ × ℤ)) : ℤ :=
  (rows.map Prod.fst).foldl min ((rows.map Prod.fst).headD 0)

/-- Latest month appearing in the raw concession rows. -/
def maxMonthIn (rows : List (ℤ × ℤ)) : ℤ :=
  (rows.map Prod.fst).foldl max ((rows.map Prod.fst).headD 0)

/-- Distinct vmpps of the input, in the sorted order `unstack` gives the
columns. -/
def timelineDrugs (rows : List (ℤ × ℤ)) : List ℤ :=
  List.insertionSort (fun a b => a ≤ b) (rows.map Prod.snd).dedup

/-- The dense timeline `dates_cons_df` (notebook line 61).  `none` models
the `ValueError` that `unstack` raises on duplicate `(month, vmpp)` index
entries; otherwise one row per (observed vmpp, month of the global
observed range), rows sorted by vmpp then month as `sort_index(level=1)`
leaves them. -/
def dates_cons_df (rows : List (ℤ × ℤ)) : Option (List TRow) :=
  if rows.Nodup then
    some ((timelineDrugs rows).flatMap (fun v =>
      (monthRange (minMonthIn rows) (maxMonthIn rows)).map (fun m =>
        { vmpp := v, month := m, concession_bool := decide ((m, v) ∈ rows) })))
  else none

/-! ### Episode Extractor (notebook lines 70-80)

`max_date = dates_cons_df["month"].max() + pd.DateOffset(months=-3)`
`pc_summary_df = (dates_cons_df.assign(Consecutive=... .groupby((cb != cb.shift()).cumsum()).transform('size'))`
`   .query('concession_bool > 0').groupby(['vmpp','Consecutive'])`
`   .aggregate(first_month=('month','first'), last_month=('month','last'))`
`   .reset_index().query("last_month < @max_date"))` -/

/-- Running block ids of `(cb != cb.shift()).cumsum()`: the first row
compares unequal to the shifted-in NaN, so ids start at 1 and increase
whenever the flag changes from the previous row of the whole frame
(drug boundaries are not reset). -/
def blockIdsAux : Bool → ℕ → List Bool → List ℕ
  | _, _, [] => []
  | prev, k, b :: rest =>
      let k2 := if b = prev then k else k + 1
      k2 :: blockIdsAux b k2 rest

/-- Block ids for a whole flag column (see `blockIdsAux`). -/
def blockIds : List Bool → List ℕ
  | [] => []
  | b :: rest => 1 :: blockIdsAux b 1 rest

/-- The `Consecutive` column: `transform('size')` of the groupby on block
ids, i.e. each row is tagged with the size of its block. -/
def consecutiveSizes (flags : List Bool) : List ℕ :=
  let ids := blockIds flags
  ids.map (fun k => ids.count k)

/-- Row of `pc_summary_df`: columns `vmpp`, `Consecutive`, `first_month`,
`last_month`. -/
structure Episode where
  vmpp : ℤ
  Consecutive : ℕ
  first_month : ℤ
  last_month : ℤ
deriving DecidableEq, Repr

/-- Timeline rows tagged with their `Consecutive` value and filtered by
`query('concession_bool > 0')`. -/
def trueRows (rows : List TRow) : List (TRow × ℕ) :=
  (rows.zip (consecutiveSizes (rows.map TRow.concession_bool))).filter
    (fun rc => rc.1.concession_bool)

/-- Keys of `groupby(['vmpp','Consecutive'])`, in pandas' sorted key
order. -/
def groupKeys (rows : List TRow) : List (ℤ × ℕ) :=
  List.insertionSort (fun a b => a.1 < b.1 ∨ (a.1 = b.1 ∧ a.2 ≤ b.2))
    ((trueRows rows).map (fun rc => (rc.1.vmpp, rc.2))).dedup

/-- Aggregation of one `(vmpp, Consecutive)` group:
`first_month=('month','first')`, `last_month=('month','last')` over the
group's rows in frame order. -/
def groupAgg (rows : List TRow) (key : ℤ × ℕ) : Episode :=
  let g := (trueRows rows).filter
    (fun rc => decide (rc.1.vmpp = key.1 ∧ rc.2 = key.2))
  { vmpp := key.1, Consecutive := key.2,
    first_month := (g.map (fun rc => rc.1.month)).headD 0,
    last_month := ((g.map (fun rc => rc.1.month)).getLast?).getD 0 }

/-- Latest month of the dense timeline, `dates_cons_df["month"].max()`. -/
def maxMonth (rows : List TRow) : ℤ :=
  (rows.map TRow.month).foldl max ((rows.map TRow.month).headD 0)

/-- The grouped episodes before the trailing-data filter. -/
def rawEpisodes (rows : List TRow) : List Episode :=
  (groupKeys rows).map (groupAgg rows)

/-- The filter `query("last_month < @max_date")` of line 78, with
`max_date` passed in explicitly. -/
def filterEpisodes (max_date : ℤ) (es : List Episode) : List Episode :=
  es.filter (fun e => decide (e.last_month < max_date))

/-- `pc_summary_df` (notebook lines 70-80): grouped episodes filtered by
`last_month < max_date` where `max_date` is the latest timeline month
minus 3 months. -/
def pc_summary_df (rows : List TRow) : List Episode :=
  filterEpisodes (maxMonth rows - 3) (rawEpisodes rows)

/-! ### Rolling Price Aggregator and Episode-Price Joiner (lines 116-126)

`dates_df['pre_month'] = dates_df['date'] + pd.DateOffset(months=1)`
`dates_df['post_month'] = dates_df['date'] + pd.DateOffset(months=-3)`
`dates_df['3_month_price'] = dates_df.groupby('vmpp')['price_pence'].transform(lambda x: x.rolling(3, 3).mean())`
then two `how='left'` merges on `['vmpp','first_month']=['vmpp','pre_month']`
and `['vmpp','last_month']=['vmpp','post_month']`, and
`perc_difference = post_pc_price/pre_pc_price - 1`,
`rx_merge_date = last_month + pd.DateOffset(months=1)`.

One drug's tariff table is a list of `(date, price_pence)` rows in frame
order; `rolling(3, 3)` is positional, so the rolling column is computed
over that order. -/

/-- The `3_month_price` column for one drug's price series:
`x.rolling(3, 3).mean()` - window 3, min_periods 3, so the first two
positions are NaN and position `i >= 2` is the mean of positions
`i-2, i-1, i`. -/
def rolling3 (xs : List ℚ) : List PFloat :=
  (List.range xs.length).map (fun i =>
    if 2 ≤ i then
      PFloat.fin ((xs.getD (i - 2) 0 + xs.getD (i - 1) 0 + xs.getD i 0) / 3)
    else PFloat.nan)

/-- One drug's tariff table paired with its `3_month_price` column:
row `i` is `(date_i, rolling mean ending at position i)`. -/
def three_month_price (tbl : List (ℤ × ℚ)) : List (ℤ × PFloat) :=
  (List.range tbl.length).map (fun i =>
    ((tbl.map Prod.fst).getD i 0, (rolling3 (tbl.map Prod.snd)).getD i PFloat.nan))

/-- `pre_pc_price` for an episode of this drug: the left merge on
`first_month = pre_month = date + 1` picks the rolling price of the row
dated `first_month - 1`; no matching row leaves the field NaN. -/
def pre_pc_price (tbl : List (ℤ × ℚ)) (first_month : ℤ) : PFloat :=
  (((three_month_price tbl).find? (fun r => decide (r.1 + 1 = first_month))).map
    Prod.snd).getD PFloat.nan

/-- `post_pc_price` for an episode of this drug: the left merge on
`last_month = post_month = date - 3` picks the rolling price of the row
dated `last_month + 3`; no matching row leaves the field NaN. -/
def post_pc_price (tbl : List (ℤ × ℚ)) (last_month : ℤ) : PFloat :=
  (((three_month_price tbl).find? (fun r => decide (r.1 - 3 = last_month))).map
    Prod.snd).getD PFloat.nan

/-- `perc_difference = post_pc_price/pre_pc_price - 1` (line 125),
in pandas float arithmetic. -/
def perc_difference (post pre : PFloat) : PFloat :=
  post / pre - PFloat.fin 1

/-- `rx_merge_date = last_month + pd.DateOffset(months=1)` (line 126). -/
def rx_merge_date (last_month : ℤ) : ℤ := last_month + 1

/-- A tariff table whose dates are the contiguous months
`start, start+1, ...` with prices `p`, the regular-series case the
joiner claims assume. -/
def contiguousTable (start : ℤ) (p : List ℚ) : List (ℤ × ℚ) :=
  (List.range p.length).map (fun i : ℕ => (start + (i : ℤ), p.getD i 0))

/-- Row of `dates_df_merge` restricted to the columns the claims are
about. -/
structure MergedRow where
  vmpp : ℤ
  first_month : ℤ
  last_month : ℤ
  pre_pc_price : PFloat
  post_pc_price : PFloat
  perc_difference : PFloat
  rx_merge_date : ℤ
deriving DecidableEq, Repr

/-- The joined output row for one episode against one drug's tariff
table (lines 119-126). -/
def mergeEpisode (tbl : List (ℤ × ℚ)) (e : Episode) : MergedRow :=
  { vmpp := e.vmpp, first_month := e.first_month, last_month := e.last_month,
    pre_pc_price := pre_pc_price tbl e.first_month,
    post_pc_price := post_pc_price tbl e.last_month,
    perc_difference := perc_difference (post_pc_price tbl e.last_month)
      (pre_pc_price tbl e.first_month),
    rx_merge_date := rx_merge_date e.last_month }

/-- `dates_df_merge`: both `how='left'` merges keep every episode row,
attaching NaN price fields where a lookup finds no tariff row. -/
def dates_df_merge (tbl : List (ℤ × ℚ)) (es : List Episode) : List MergedRow :=
  es.map (mergeEpisode tbl)

/-! ### Rolling Quantity Aggregator and Cost Impact Calculator (lines 140-174)

The quantity SQL sums `rx.quantity` over
`RANGE BETWEEN 0 PRECEDING AND 2 FOLLOWING` ordered by month, so each
`date_3m_start` covers the months `[d, d+1, d+2]`.  Line 173 is
`pd.merge(dates_df_merge, rx_df, how='right', left_on=['bnf_code','rx_merge_date'], right_on=['bnf_code','date_3m_start'])`
and line 174 is
`0.01*(roll_3m_quantity/unit_qty)*(post_pc_price-pre_pc_price)`. -/

/-- Months covered by the forward 3-month quantity window anchored at
`date_3m_start` (SQL lines 144-148). -/
def roll_3m_window (date_3m_start : ℤ) : List ℤ :=
  [date_3m_start, date_3m_start + 1, date_3m_start + 2]

/-- Row of the quantity dataframe `rx_df`. -/
structure QRow where
  bnf_code : ℤ
  date_3m_start : ℤ
  roll_3m_quantity : ℚ
deriving DecidableEq, Repr

/-- Row of `dates_df_merge` restricted to the columns the right join
uses; the price fields may be NaN from failed lookups. -/
structure DtRow where
  bnf_code : ℤ
  rx_merge_date : ℤ
  unit_qty : PFloat
  pre_pc_price : PFloat
  post_pc_price : PFloat
deriving DecidableEq, Repr

/-- Row of `rx_df_merge`: the quantity columns are always present, the
episode-side columns are NaN when no episode matched. -/
structure OutRow where
  bnf_code : ℤ
  date_3m_start : ℤ
  roll_3m_quantity : PFloat
  unit_qty : PFloat
  pre_pc_price : PFloat
  post_pc_price : PFloat
deriving DecidableEq, Repr

/-- Join predicate of the merge keys
`['bnf_code','rx_merge_date'] = ['bnf_code','date_3m_start']`. -/
def keyMatches (b d : ℤ) (l : DtRow) : Bool :=
  decide (l.bnf_code = b ∧ l.rx_merge_date = d)

/-- Whether any episode row matches the key of a quantity row. -/
def hasMatchKey (lefts : List DtRow) (b d : ℤ) : Bool :=
  lefts.any (keyMatches b d)

/-- Output rows the right join produces for one quantity row: one row
per matching episode row, or a single row with NaN episode columns when
no episode matches. -/
def rightJoinBlock (lefts : List DtRow) (r : QRow) : List OutRow :=
  if (lefts.filter (keyMatches r.bnf_code r.date_3m_start)).isEmpty then
    [{ bnf_code := r.bnf_code, date_3m_start := r.date_3m_start,
       roll_3m_quantity := PFloat.fin r.roll_3m_quantity,
       unit_qty := PFloat.nan, pre_pc_price := PFloat.nan,
       post_pc_price := PFloat.nan }]
  else (lefts.filter (keyMatches r.bnf_code r.date_3m_start)).map (fun l =>
    { bnf_code := r.bnf_code, date_3m_start := r.date_3m_start,
      roll_3m_quantity := PFloat.fin r.roll_3m_quantity,
      unit_qty := l.unit_qty, pre_pc_price := l.pre_pc_price,
      post_pc_price := l.post_pc_price })

/-- The `how='right'` merge of line 173: every quantity row is kept; it
is paired with each matching episode row, or with NaN episode columns
when none matches. -/
def rx_df_merge (lefts : List DtRow) (rights : List QRow) : List OutRow :=
  rights.flatMap (rightJoinBlock lefts)

/-- `3_m_additional_cost` (line 174):
`0.01*(roll_3m_quantity/unit_qty)*(post_pc_price-pre_pc_price)` in
pandas float arithmetic, with python's left-to-right grouping. -/
def additional_cost_3m (row : OutRow) : PFloat :=
  PFloat.fin (1 / 100) * (row.roll_3m_quantity / row.unit_qty) *
    (row.post_pc_price - row.pre_pc_price)

/-- The merged table with its `3_m_additional_cost` column. -/
def rx_df_costed (lefts : List DtRow) (rights : List QRow) :
    List (OutRow × PFloat) :=
  (rx_df_merge lefts rights).map (fun row => (row, additional_cost_3m row))

/-! ### Concrete inputs used by counterexamples and witnesses -/

/-- Concession input: drug 1 on concession in months 0 and 2, drug 2 in
month 6.  Drug 1's dense flags are T,F,T,F,F,F,F: two distinct true-runs
of equal length 1. -/
def c1input : List (ℤ × ℤ) := [(0, 1), (2, 1), (6, 2)]

/-- Dense timeline of `c1input`. -/
def c1timeline : List TRow := (dates_cons_df c1input).getD []

/-- Concession input: drug 1 on concession in month 0 only, drug 2 in
month 3, so the latest observed month is 3 and drug 1's episode ends
exactly 3 months before it. -/
def c3input : List (ℤ × ℤ) := [(0, 1), (3, 2)]

/-- Dense timeline of `c3input`. -/
def c3timeline : List TRow := (dates_cons_df c3input).getD []

/-- Output row with a zero (but non-null) `pre_pc_price`: quantity 1000,
pack size 1, post price 110, pre price 0. -/
def c7row : OutRow :=
  { bnf_code := 1, date_3m_start := 5, roll_3m_quantity := PFloat.fin 1000,
    unit_qty := PFloat.fin 1, pre_pc_price := PFloat.fin 0,
    post_pc_price := PFloat.fin 110 }

/-- Episode row whose post-price lookup failed (NaN `post_pc_price`)
but whose merge key matches a quantity row. -/
def c9left : DtRow :=
  { bnf_code := 1, rx_merge_date := 5, unit_qty := PFloat.fin 1,
    pre_pc_price := PFloat.fin 10, post_pc_price := PFloat.nan }

/-- Quantity row matching the key of `c9left`. -/
def c9right : QRow :=
  { bnf_code := 1, date_3m_start := 5, roll_3m_quantity := 100 }

/-- Literal transcription of claim C9: every output row of the cost join
either has no matching episode and a null cost, or has a matching
episode with non-null prices and the cost formula. -/
def joinClaimC9 (lefts : List DtRow) (rights : List QRow) : Prop :=
  ∀ pr ∈ rx_df_costed lefts rights,
    (hasMatchKey lefts pr.1.bnf_code pr.1.date_3m_start = false ∧
      pr.2 = PFloat.nan) ∨
    (hasMatchKey lefts pr.1.bnf_code pr.1.date_3m_start = true ∧
      pr.1.pre_pc_price ≠ PFloat.nan ∧ pr.1.post_pc_price ≠ PFloat.nan ∧
      pr.2 = PFloat.fin (1 / 100) * (pr.1.roll_3m_quantity / pr.1.unit_qty) *
        (pr.1.post_pc_price - pr.1.pre_pc_price))

/-! ## Theorems -/

namespace PFloat

theorem add_def (x y : PFloat) : x + y = PFloat.add x y := rfl

theorem sub_def (x y : PFloat) : x - y = PFloat.sub x y := rfl

theorem mul_def (x y : PFloat) : x * y = PFloat.mul x y := rfl

theorem div_def (x y : PFloat) : x / y = PFloat.div x y := rfl

theorem nan_add (y : PFloat) : nan + y = nan := by cases y <;> rfl

theorem add_nan (x : PFloat) : x + nan = nan := by cases x <;> rfl

theorem nan_sub (y : PFloat) : nan - y = nan := by cases y <;> rfl

theorem sub_nan (x : PFloat) : x - nan = nan := by cases x <;> rfl

theorem nan_mul (y : PFloat) : nan * y = nan := by cases y <;> rfl

theorem mul_nan (x : PFloat) : x * nan = nan := by cases x <;> rfl

theorem nan_div (y : PFloat) : nan / y = nan := by cases y <;> rfl

theorem div_nan (x : PFloat) : x / nan = nan := by cases x <;> rfl

end PFloat

/-- Claim C1 (code bug witness): on the dense timeline of `c1input`,
drug 1 has the flags T,F,T,F,F,F,F - two maximal true-runs, both of
length 1, ending well before the last observed month.  Because the
extractor groups by `(vmpp, Consecutive)` - the run length, not the run
identity - the two runs fall into one group and a single episode
spanning months 0..2 is emitted, instead of the two episodes
(0,0) and (2,2) the run-length-correct specification demands. -/
theorem C1_equal_length_runs_merged :
    pc_summary_df c1timeline =
      [{ vmpp := 1, Consecutive := 1, first_month := 0, last_month := 2 }] := by
  decide

/-- Claim C2 counterexample: the joiner's quantity-side anchor for an
episode ending at month 0 is month 1, not month 0 + 4. -/
theorem C2_anchor_counterexample :
    ¬ ((mergeEpisode [] ⟨1, 1, 0, 0⟩).rx_merge_date = 0 + 4) := by
  decide

/-- Claim C2 (amended): for every episode the quantity-side anchor month
`rx_merge_date` equals last_month + 1 calendar month - the first month
of the 3-month post-measurement window - and the forward quantity window
anchored there covers exactly the months last_month+1 .. last_month+3. -/
theorem C2_anchor_is_last_plus_one (tbl : List (ℤ × ℚ)) (e : Episode) :
    (mergeEpisode tbl e).rx_merge_date = e.last_month + 1 ∧
    roll_3m_window ((mergeEpisode tbl e).rx_merge_date) =
      [e.last_month + 1, e.last_month + 2, e.last_month + 3] := by
  refine ⟨rfl, ?_⟩
  show roll_3m_window (e.last_month + 1) = _
  simp only [roll_3m_window, List.cons.injEq]
  exact ⟨trivial, by omega, by omega, trivial⟩

/-- Claim C3 counterexample: on the timeline of `c3input` the latest
observed month is 3 and drug 1's episode ends at month 0 = 3 - 3; the
claim says it is retained, but the strict filter
`last_month < max_date` drops it (and the boundary episode of drug 2),
leaving `pc_summary_df` empty. -/
theorem C3_boundary_episode_dropped :
    rawEpisodes c3timeline =
      [{ vmpp := 1, Consecutive := 1, first_month := 0, last_month := 0 },
       { vmpp := 2, Consecutive := 1, first_month := 3, last_month := 3 }] ∧
    maxMonth c3timeline = 3 ∧ pc_summary_df c3timeline = [] := by
  decide

/-- Claim C3 (amended): the episode validity filter keeps an episode if
and only if last_month + 4 <= the maximum observed month, i.e.
last_month is strictly below max - 3; an episode whose last_month is
exactly max - 3 is discarded. -/
theorem C3_filter_keeps_iff_strict (M : ℤ) (es : List Episode) (e : Episode) :
    e ∈ filterEpisodes (M - 3) es ↔ e ∈ es ∧ e.last_month + 4 ≤ M := by
  simp only [filterEpisodes, List.mem_filter, decide_eq_true_eq]
  exact and_congr_right fun _ => by omega

/-- Claim C7 counterexample: with a zero (non-null) pre price and post
price 110, `perc_difference` is +infinity - a definite non-null value -
and with quantity 1000 and pack size 1 the additional cost is the finite
value 1100, not null/undefined. -/
theorem C7_zero_pre_price_not_null :
    perc_difference (PFloat.fin 110) (PFloat.fin 0) = PFloat.inf ∧
    additional_cost_3m c7row = PFloat.fin 1100 ∧
    PFloat.fin (1100 : ℚ) ≠ PFloat.nan := by
  refine ⟨?_, ?_, by simp⟩
  · norm_num [perc_difference, PFloat.div_def, PFloat.sub_def, PFloat.div,
      PFloat.sub, PFloat.add, PFloat.neg]
  · norm_num [additional_cost_3m, c7row, PFloat.div_def, PFloat.sub_def,
      PFloat.mul_def, PFloat.div, PFloat.sub, PFloat.add, PFloat.neg,
      PFloat.mul]

/-- Claim C7 (amended): the computations never raise (they are total
functions into float values); a null post or pre price propagates to a
null `perc_difference` and a null additional cost; and a zero pre price
makes `perc_difference` a non-finite value (NaN or a signed infinity)
rather than raising - though the additional cost can then be finite. -/
theorem C7_null_propagation_no_exception (post pre qty unit : PFloat) :
    (post = PFloat.nan ∨ pre = PFloat.nan →
      perc_difference post pre = PFloat.nan ∧
      additional_cost_3m ⟨0, 0, qty, unit, pre, post⟩ = PFloat.nan) ∧
    (pre = PFloat.fin 0 → ∀ q : ℚ, perc_difference post pre ≠ PFloat.fin q) := by
  constructor
  · rintro (rfl | rfl) <;>
      simp [perc_difference, additional_cost_3m, PFloat.nan_div,
        PFloat.div_nan, PFloat.nan_sub, PFloat.sub_nan, PFloat.mul_nan,
        PFloat.nan_mul]
  · rintro rfl q
    cases post with
    | nan => simp [perc_difference, PFloat.nan_div, PFloat.nan_sub]
    | inf => exact fun h => PFloat.noConfusion h
    | neginf => exact fun h => PFloat.noConfusion h
    | fin a =>
        show PFloat.sub (PFloat.div (.fin a) (.fin 0)) (.fin 1) ≠ .fin q
        simp only [PFloat.div, if_pos]
        split_ifs <;> exact fun h => PFloat.noConfusion h

/-- Claim C7 witness: the amended theorem applied at a null post price
with finite pre price, quantity and pack size. -/
theorem C7_null_propagation_witness :
    perc_difference PFloat.nan (PFloat.fin 5) = PFloat.nan ∧
    additional_cost_3m
      ⟨0, 0, PFloat.fin 7, PFloat.fin 2, PFloat.fin 5, PFloat.nan⟩ =
      PFloat.nan :=
  (C7_null_propagation_no_exception PFloat.nan (PFloat.fin 5) (PFloat.fin 7)
    (PFloat.fin 2)).1 (Or.inl rfl)

/-- Claim C8 counterexample: the timeline builder raises (models as
`none`) on an input holding the pair (month 0, vmpp 5) twice, instead of
deduplicating it. -/
theorem C8_duplicate_pairs_raise :
    dates_cons_df [(0, 5), (0, 5)] = none := by
  decide

/-- Claim C8 (amended): the timeline builder succeeds exactly on inputs
free of duplicate (month, vmpp) pairs; `unstack` raises on a duplicate
index entry, so deduplication is the upstream query's responsibility
(its SELECT DISTINCT), not the builder's. -/
theorem C8_builder_requires_dedup_input (rows : List (ℤ × ℤ)) :
    (dates_cons_df rows).isSome = true ↔ rows.Nodup := by
  unfold dates_cons_df
  split_ifs with h <;> simp [h]

/-- Claim C9 counterexample: an episode row whose post-price lookup
failed (NaN post price) still matches a quantity row; the output row
then has a matching episode but a null price and null cost, violating
the claimed dichotomy. -/
theorem C9_matched_row_with_null_price :
    ¬ joinClaimC9 [c9left] [c9right] := by
  unfold joinClaimC9
  decide

theorem rolling3_length (xs : List ℚ) : (rolling3 xs).length = xs.length := by
  simp [rolling3]

theorem rolling3_getD (xs : List ℚ) (i : ℕ) (hi : i < xs.length) :
    (rolling3 xs).getD i PFloat.nan =
      if 2 ≤ i then
        PFloat.fin ((xs.getD (i - 2) 0 + xs.getD (i - 1) 0 + xs.getD i 0) / 3)
      else PFloat.nan := by
  rw [List.getD_eq_getElem _ _ (by simpa [rolling3] using hi)]
  simp [rolling3, List.getElem_map, List.getElem_range]

/-- Claim C4: the rolling price aggregator is a trailing 3-observation
mean per drug, undefined (NaN) exactly on the first two positions of the
drug's series, and at position i >= 2 equal to the mean of the prices at
positions i-2, i-1, i. -/
theorem C4_rolling_price_window (xs : List ℚ) (i : ℕ) (hi : i < xs.length) :
    ((rolling3 xs).getD i PFloat.nan = PFloat.nan ↔ i < 2) ∧
    (2 ≤ i → (rolling3 xs).getD i PFloat.nan =
      PFloat.fin ((xs.getD (i - 2) 0 + xs.getD (i - 1) 0 + xs.getD i 0) / 3)) := by
  rw [rolling3_getD xs i hi]
  by_cases h : 2 ≤ i <;> (simp [h]; try omega)

/-- Claim C4 witness: on the price series 10, 20, 30, 40 the rolling
column is NaN, NaN, 20, 30, as the specification's example demands. -/
theorem C4_rolling_price_witness :
    (rolling3 [10, 20, 30, 40]).getD 1 PFloat.nan = PFloat.nan ∧
    (rolling3 [10, 20, 30, 40]).getD 2 PFloat.nan = PFloat.fin 20 ∧
    (rolling3 [10, 20, 30, 40]).getD 3 PFloat.nan = PFloat.fin 30 := by
  refine ⟨?_, ?_, ?_⟩
  · exact (C4_rolling_price_window [10, 20, 30, 40] 1 (by decide)).1.mpr
      (by decide)
  · exact ((C4_rolling_price_window [10, 20, 30, 40] 2 (by decide)).2
      (by decide)).trans
      (by norm_num [List.getD_cons_zero, List.getD_cons_succ])
  · exact ((C4_rolling_price_window [10, 20, 30, 40] 3 (by decide)).2
      (by decide)).trans
      (by norm_num [List.getD_cons_zero, List.getD_cons_succ])

/-- Claim C6: when the pre-episode or post-episode rolling-price lookup
finds no entry, the joiner still emits a row for the episode, with the
corresponding price field NaN and a NaN `perc_difference`, rather than
dropping the episode. -/
theorem C6_missing_lookup_retains_episode (tbl : List (ℤ × ℚ))
    (es : List Episode) (e : Episode) (he : e ∈ es) :
    ∃ row ∈ dates_df_merge tbl es,
      row.vmpp = e.vmpp ∧ row.first_month = e.first_month ∧
      row.last_month = e.last_month ∧
      ((three_month_price tbl).find?
          (fun r => decide (r.1 + 1 = e.first_month)) = none →
        row.pre_pc_price = PFloat.nan ∧ row.perc_difference = PFloat.nan) ∧
      ((three_month_price tbl).find?
          (fun r => decide (r.1 - 3 = e.last_month)) = none →
        row.post_pc_price = PFloat.nan ∧ row.perc_difference = PFloat.nan) := by
  refine ⟨mergeEpisode tbl e, List.mem_map_of_mem _ he, rfl, rfl, rfl, ?_, ?_⟩
  · intro hn
    have hpre : pre_pc_price tbl e.first_month = PFloat.nan := by
      simp [pre_pc_price, hn]
    refine ⟨hpre, ?_⟩
    show perc_difference (post_pc_price tbl e.last_month)
      (pre_pc_price tbl e.first_month) = PFloat.nan
    rw [hpre]
    simp [perc_difference, PFloat.div_nan, PFloat.nan_sub]
  · intro hn
    have hpost : post_pc_price tbl e.last_month = PFloat.nan := by
      simp [post_pc_price, hn]
    refine ⟨hpost, ?_⟩
    show perc_difference (post_pc_price tbl e.last_month)
      (pre_pc_price tbl e.first_month) = PFloat.nan
    rw [hpost]
    simp [perc_difference, PFloat.nan_div, PFloat.nan_sub]

/-- Claim C6 witness: against an empty tariff table both lookups fail,
yet the episode (first month 10, last month 12) is still present in the
joined output, with NaN prices and NaN percentage change. -/
theorem C6_missing_lookup_witness :
    ∃ row ∈ dates_df_merge [] [⟨1, 1, 10, 12⟩],
      row.pre_pc_price = PFloat.nan ∧ row.post_pc_price = PFloat.nan ∧
      row.perc_difference = PFloat.nan := by
  obtain ⟨row, hmem, -, -, -, h1, h2⟩ :=
    C6_missing_lookup_retains_episode [] [⟨1, 1, 10, 12⟩] ⟨1, 1, 10, 12⟩
      (by decide)
  have k1 := h1 (by decide)
  have k2 := h2 (by decide)
  exact ⟨row, hmem, k1.1, k2.1, k1.2⟩

theorem findAt {α : Type} (p : α → Bool) :
    ∀ (l : List α) (j : ℕ) (hj : j < l.length),
      p (l.get ⟨j, hj⟩) = true →
      (∀ i (hi : i < l.length), i < j → p (l.get ⟨i, hi⟩) = false) →
      l.find? p = some (l.get ⟨j, hj⟩)
  | [], j, hj => fun _ _ => absurd hj (by simp)
  | a :: t, 0, hj => fun hsat _ => by
      have := List.find?_cons_of_pos (p := p) t (show p a = true from hsat)
      simpa using this
  | a :: t, j + 1, hj => fun hsat hmin => by
      have h0 : p a = false := by
        simpa using hmin 0 (by simp) (Nat.succ_pos j)
      rw [List.find?_cons_of_neg _ (by simp [h0])]
      have hj2 : j < t.length := Nat.lt_of_succ_lt_succ hj
      have hrec := findAt p t j hj2 (by simpa using hsat)
        (fun i hi hlt => by
          simpa using hmin (i + 1) (Nat.succ_lt_succ hi) (Nat.succ_lt_succ hlt))
      simpa using hrec

theorem contiguousTable_length (start : ℤ) (p : List ℚ) :
    (contiguousTable start p).length = p.length := by
  simp [contiguousTable]

theorem contiguousTable_fst_getD (start : ℤ) (p : List ℚ) (i : ℕ)
    (hi : i < p.length) :
    ((contiguousTable start p).map Prod.fst).getD i 0 = start + i := by
  rw [List.getD_eq_getElem _ _ (by simp [contiguousTable]; omega)]
  simp [contiguousTable, List.getElem_map, List.getElem_range]

theorem contiguousTable_snd_getD (start : ℤ) (p : List ℚ) (i : ℕ)
    (hi : i < p.length) :
    ((contiguousTable start p).map Prod.snd).getD i 0 = p.getD i 0 := by
  rw [List.getD_eq_getElem _ _ (by simp [contiguousTable]; omega)]
  simp [contiguousTable, List.getElem_map, List.getElem_range]

theorem three_month_price_length (tbl : List (ℤ × ℚ)) :
    (three_month_price tbl).length = tbl.length := by
  simp [three_month_price]

theorem three_month_price_get (tbl : List (ℤ × ℚ)) (i : ℕ)
    (hi : i < (three_month_price tbl).length) :
    (three_month_price tbl).get ⟨i, hi⟩ =
      ((tbl.map Prod.fst).getD i 0,
        (rolling3 (tbl.map Prod.snd)).getD i PFloat.nan) := by
  simp [three_month_price, List.get_eq_getElem, List.getElem_map,
    List.getElem_range]

theorem three_month_price_contiguous (start : ℤ) (p : List ℚ) (i : ℕ)
    (hi : i < p.length)
    (hlen : i < (three_month_price (contiguousTable start p)).length) :
    (three_month_price (contiguousTable start p)).get ⟨i, hlen⟩ =
      (start + (i : ℤ),
        if 2 ≤ i then
          PFloat.fin ((p.getD (i - 2) 0 + p.getD (i - 1) 0 + p.getD i 0) / 3)
        else PFloat.nan) := by
  rw [three_month_price_get _ _ hlen]
  have hsnd : ((contiguousTable start p).map Prod.snd).length = p.length := by
    simp [contiguousTable]
  congr 1
  · exact contiguousTable_fst_getD start p i hi
  · rw [rolling3_getD _ _ (by omega)]
    by_cases h : 2 ≤ i
    · rw [if_pos h, if_pos h, contiguousTable_snd_getD _ _ _ (by omega),
        contiguousTable_snd_getD _ _ _ (by omega),
        contiguousTable_snd_getD _ _ _ hi]
    · rw [if_neg h, if_neg h]

theorem pre_price_contiguous (start : ℤ) (p : List ℚ) (first_month : ℤ)
    (j : ℕ) (hj : first_month - 1 = start + j) (hj2 : 2 ≤ j)
    (hjl : j < p.length) :
    pre_pc_price (contiguousTable start p) first_month =
      PFloat.fin ((p.getD (j - 2) 0 + p.getD (j - 1) 0 + p.getD j 0) / 3) := by
  have hlen : (three_month_price (contiguousTable start p)).length = p.length := by
    rw [three_month_price_length, contiguousTable_length]
  have hj3 : j < (three_month_price (contiguousTable start p)).length := by
    omega
  have hfind := findAt (fun r => decide (r.1 + 1 = first_month)) _ j hj3
    (by
      rw [three_month_price_contiguous start p j hjl hj3]
      simp only [decide_eq_true_eq]
      omega)
    (fun i hi hlt => by
      rw [three_month_price_contiguous start p i (by omega) hi]
      simp only [decide_eq_false_iff_not]
      omega)
  unfold pre_pc_price
  rw [hfind, three_month_price_contiguous start p j hjl hj3]
  simp [hj2]

theorem post_price_contiguous (start : ℤ) (p : List ℚ) (last_month : ℤ)
    (k : ℕ) (hk : last_month + 3 = start + k) (hk2 : 2 ≤ k)
    (hkl : k < p.length) :
    post_pc_price (contiguousTable start p) last_month =
      PFloat.fin ((p.getD (k - 2) 0 + p.getD (k - 1) 0 + p.getD k 0) / 3) := by
  have hlen : (three_month_price (contiguousTable start p)).length = p.length := by
    rw [three_month_price_length, contiguousTable_length]
  have hk3 : k < (three_month_price (contiguousTable start p)).length := by
    omega
  have hfind := findAt (fun r => decide (r.1 - 3 = last_month)) _ k hk3
    (by
      rw [three_month_price_contiguous start p k hkl hk3]
      simp only [decide_eq_true_eq]
      omega)
    (fun i hi hlt => by
      rw [three_month_price_contiguous start p i (by omega) hi]
      simp only [decide_eq_false_iff_not]
      omega)
  unfold post_pc_price
  rw [hfind, three_month_price_contiguous start p k hkl hk3]
  simp [hk2]

/-- Claim C5: over a contiguous monthly price series starting at month
`start`, the joiner's pre price is the trailing rolling mean ending at
first_month - 1, i.e. the mean of the prices of months first_month-3,
first_month-2, first_month-1, and its post price is the trailing rolling
mean ending at last_month + 3, i.e. the mean of the prices of months
last_month+1, last_month+2, last_month+3 (the price of month start + i
being entry i of the series). -/
theorem C5_pre_post_price_windows (start : ℤ) (p : List ℚ)
    (first_month last_month : ℤ) (j k : ℕ)
    (hj : first_month - 1 = start + j) (hj2 : 2 ≤ j) (hjl : j < p.length)
    (hk : last_month + 3 = start + k) (hk2 : 2 ≤ k) (hkl : k < p.length) :
    (pre_pc_price (contiguousTable start p) first_month =
        PFloat.fin ((p.getD (j - 2) 0 + p.getD (j - 1) 0 + p.getD j 0) / 3) ∧
      start + ((j : ℤ) - 2) = first_month - 3 ∧
      start + ((j : ℤ) - 1) = first_month - 2 ∧
      start + (j : ℤ) = first_month - 1) ∧
    (post_pc_price (contiguousTable start p) last_month =
        PFloat.fin ((p.getD (k - 2) 0 + p.getD (k - 1) 0 + p.getD k 0) / 3) ∧
      start + ((k : ℤ) - 2) = last_month + 1 ∧
      start + ((k : ℤ) - 1) = last_month + 2 ∧
      start + (k : ℤ) = last_month + 3) := by
  refine ⟨⟨pre_price_contiguous start p first_month j hj hj2 hjl,
      by omega, by omega, by omega⟩,
    ⟨post_price_contiguous start p last_month k hk hk2 hkl,
      by omega, by omega, by omega⟩⟩

/-- Claim C5 witness: on the contiguous series 10..70 starting at month
0, the episode with first month 3 and last month 2 gets pre price
(10+20+30)/3 = 20 (months 0,1,2) and post price (40+50+60)/3 = 50
(months 3,4,5). -/
theorem C5_pre_post_price_witness :
    pre_pc_price (contiguousTable 0 [10, 20, 30, 40, 50, 60, 70]) 3 =
      PFloat.fin 20 ∧
    post_pc_price (contiguousTable 0 [10, 20, 30, 40, 50, 60, 70]) 2 =
      PFloat.fin 50 := by
  have h := C5_pre_post_price_windows 0 [10, 20, 30, 40, 50, 60, 70] 3 2 2 5
    (by decide) (by decide) (by decide) (by decide) (by decide) (by decide)
  refine ⟨h.1.1.trans ?_, h.2.1.trans ?_⟩ <;>
    norm_num [List.getD_cons_zero, List.getD_cons_succ]

theorem hasMatchKey_false_iff (lefts : List DtRow) (b d : ℤ) :
    hasMatchKey lefts b d = false ↔ lefts.filter (keyMatches b d) = [] := by
  simp [hasMatchKey, List.any_eq_false, List.filter_eq_nil_iff]

/-- Claim C9 (amended): the right join preserves every quantity-window
row; every output row's cost is the line-174 formula of its own fields,
and is null whenever either price field is null; a row with no matching
episode carries NaN episode fields and a NaN cost; a row with a matching
episode takes its episode fields from one of the matching episode rows. -/
theorem C9_right_join_preserves_quantity_rows (lefts : List DtRow)
    (rights : List QRow) :
    (∀ r ∈ rights, ∃ pr ∈ rx_df_costed lefts rights,
        pr.1.bnf_code = r.bnf_code ∧ pr.1.date_3m_start = r.date_3m_start ∧
        pr.1.roll_3m_quantity = PFloat.fin r.roll_3m_quantity) ∧
    (∀ pr ∈ rx_df_costed lefts rights,
        pr.2 = PFloat.fin (1 / 100) *
          (pr.1.roll_3m_quantity / pr.1.unit_qty) *
          (pr.1.post_pc_price - pr.1.pre_pc_price) ∧
        (pr.1.pre_pc_price = PFloat.nan ∨ pr.1.post_pc_price = PFloat.nan →
          pr.2 = PFloat.nan) ∧
        (hasMatchKey lefts pr.1.bnf_code pr.1.date_3m_start = false →
          pr.1.unit_qty = PFloat.nan ∧ pr.1.pre_pc_price = PFloat.nan ∧
          pr.1.post_pc_price = PFloat.nan ∧ pr.2 = PFloat.nan) ∧
        (hasMatchKey lefts pr.1.bnf_code pr.1.date_3m_start = true →
          ∃ l ∈ lefts, l.bnf_code = pr.1.bnf_code ∧
            l.rx_merge_date = pr.1.date_3m_start ∧
            pr.1.unit_qty = l.unit_qty ∧
            pr.1.pre_pc_price = l.pre_pc_price ∧
            pr.1.post_pc_price = l.post_pc_price)) := by
  constructor
  · intro r hr
    cases hfl : lefts.filter (keyMatches r.bnf_code r.date_3m_start) with
    | nil =>
        have hb : ({ bnf_code := r.bnf_code, date_3m_start := r.date_3m_start,
                     roll_3m_quantity := PFloat.fin r.roll_3m_quantity,
                     unit_qty := PFloat.nan, pre_pc_price := PFloat.nan,
                     post_pc_price := PFloat.nan } : OutRow) ∈
            rx_df_merge lefts rights := by
          refine List.mem_flatMap.mpr ⟨r, hr, ?_⟩
          unfold rightJoinBlock
          rw [hfl]
          simp
        exact ⟨_, List.mem_map_of_mem _ hb, rfl, rfl, rfl⟩
    | cons a t =>
        have hb : ({ bnf_code := r.bnf_code, date_3m_start := r.date_3m_start,
                     roll_3m_quantity := PFloat.fin r.roll_3m_quantity,
                     unit_qty := a.unit_qty, pre_pc_price := a.pre_pc_price,
                     post_pc_price := a.post_pc_price } : OutRow) ∈
            rx_df_merge lefts rights := by
          refine List.mem_flatMap.mpr ⟨r, hr, ?_⟩
          unfold rightJoinBlock
          rw [hfl]
          simp only [List.isEmpty_cons, Bool.false_eq_true, if_false]
          exact List.mem_map_of_mem _ (List.mem_cons_self a t)
        exact ⟨_, List.mem_map_of_mem _ hb, rfl, rfl, rfl⟩
  · intro pr hpr
    obtain ⟨row, hrow, rfl⟩ := List.mem_map.mp hpr
    obtain ⟨r, hr, hin⟩ := List.mem_flatMap.mp hrow
    refine ⟨rfl, ?_, ?_, ?_⟩
    · rintro (h | h)
      · replace h : row.pre_pc_price = PFloat.nan := h
        simp [additional_cost_3m, h, PFloat.sub_nan, PFloat.mul_nan]
      · replace h : row.post_pc_price = PFloat.nan := h
        simp [additional_cost_3m, h, PFloat.nan_sub, PFloat.mul_nan]
    · intro hfalse
      cases hfl : lefts.filter (keyMatches r.bnf_code r.date_3m_start) with
      | nil =>
          unfold rightJoinBlock at hin
          rw [hfl] at hin
          simp only [List.isEmpty_nil, if_true, List.mem_singleton] at hin
          subst hin
          refine ⟨rfl, rfl, rfl, ?_⟩
          simp [additional_cost_3m, PFloat.div_nan, PFloat.mul_nan,
            PFloat.nan_mul, PFloat.nan_sub]
      | cons a t =>
          exfalso
          unfold rightJoinBlock at hin
          rw [hfl] at hin
          simp only [List.isEmpty_cons, Bool.false_eq_true, if_false,
            List.mem_map] at hin
          obtain ⟨x, hx, heq⟩ := hin
          have hx2 : x ∈ lefts.filter (keyMatches r.bnf_code r.date_3m_start) := by
            rw [hfl]
            exact hx
          have hx3 := List.mem_filter.mp hx2
          have htrue : hasMatchKey lefts r.bnf_code r.date_3m_start = true :=
            List.any_eq_true.mpr ⟨x, hx3.1, hx3.2⟩
          subst heq
          simp [htrue] at hfalse
    · intro htrue
      cases hfl : lefts.filter (keyMatches r.bnf_code r.date_3m_start) with
      | nil =>
          exfalso
          unfold rightJoinBlock at hin
          rw [hfl] at hin
          simp only [List.isEmpty_nil, if_true, List.mem_singleton] at hin
          subst hin
          have hf := (hasMatchKey_false_iff lefts r.bnf_code
            r.date_3m_start).mpr hfl
          simp [hf] at htrue
      | cons a t =>
          unfold rightJoinBlock at hin
          rw [hfl] at hin
          simp only [List.isEmpty_cons, Bool.false_eq_true, if_false,
            List.mem_map] at hin
          obtain ⟨x, hx, heq⟩ := hin
          have hx2 : x ∈ lefts.filter (keyMatches r.bnf_code r.date_3m_start) := by
            rw [hfl]
            exact hx
          have hx3 := List.mem_filter.mp hx2
          have hkey := hx3.2
          simp only [keyMatches, decide_eq_true_eq] at hkey
          subst heq
          exact ⟨x, hx3.1, by simp [hkey.1], by simp [hkey.2], rfl, rfl, rfl⟩

/-- Claim C9 witness: the amended theorem applied to an empty episode
table and the single quantity row (bnf 1, window start 5, quantity 100):
the quantity row survives the right join. -/
theorem C9_right_join_witness :
    ∃ pr ∈ rx_df_costed [] [⟨1, 5, 100⟩],
      pr.1.bnf_code = 1 ∧ pr.1.date_3m_start = 5 ∧
      pr.1.roll_3m_quantity = PFloat.fin 100 :=
  (C9_right_join_preserves_quantity_rows [] [⟨1, 5, 100⟩]).1 ⟨1, 5, 100⟩
    (by decide)

theorem count_flatMap {α β : Type} [DecidableEq β] (l : List α)
    (f : α → List β) (b : β) :
    (l.flatMap f).count b = (l.map (fun a => (f a).count b)).sum := by
  induction l with
  | nil => rfl
  | cons a t ih => simp [List.flatMap_cons, List.count_append, ih]

theorem sum_single {α : Type} [DecidableEq α] :
    ∀ (l : List α) (d : α) (c : ℕ) (g : α → ℕ),
      l.Nodup → d ∈ l → g d = c → (∀ x ∈ l, x ≠ d → g x = 0) →
      (l.map g).sum = c
  | [], d, c, g => fun _ hd _ _ => absurd hd (by simp)
  | a :: t, d, c, g => fun hnd hd hgd hz => by
      rcases List.mem_cons.mp hd with rfl | hdt
      · have ht0 : (t.map g).sum = 0 := by
          apply List.sum_eq_zero
          intro y hy
          obtain ⟨x, hx, rfl⟩ := List.mem_map.mp hy
          exact hz x (List.mem_cons_of_mem _ hx)
            (fun h => (List.nodup_cons.mp hnd).1 (by rw [← h]; exact hx))
        simp [ht0, hgd]
      · have ha0 : g a = 0 := hz a (List.mem_cons_self a t)
          (fun h => (List.nodup_cons.mp hnd).1 (by rw [h]; exact hdt))
        have hrec := sum_single t d c g (List.nodup_cons.mp hnd).2 hdt hgd
          (fun x hx hne => hz x (List.mem_cons_of_mem _ hx) hne)
        simp [ha0, hrec]

theorem mem_monthRange (lo hi m : ℤ) :
    m ∈ monthRange lo hi ↔ lo ≤ m ∧ m ≤ hi := by
  simp only [monthRange, List.mem_map, List.mem_range]
  constructor
  · rintro ⟨i, hik, rfl⟩
    omega
  · rintro ⟨ha, hb⟩
    exact ⟨(m - lo).toNat, by omega, by omega⟩

theorem nodup_monthRange (lo hi : ℤ) : (monthRange lo hi).Nodup := by
  unfold monthRange
  refine List.Nodup.map (fun i j hij => ?_) (List.nodup_range _)
  simpa using hij

theorem timelineDrugs_nodup (rows : List (ℤ × ℤ)) :
    (timelineDrugs rows).Nodup := by
  unfold timelineDrugs
  exact ((List.perm_insertionSort _ _).symm).nodup (List.nodup_dedup _)

theorem mem_timelineDrugs (rows : List (ℤ × ℤ)) (d : ℤ) :
    d ∈ timelineDrugs rows ↔ d ∈ rows.map Prod.snd := by
  unfold timelineDrugs
  rw [(List.perm_insertionSort _ _).mem_iff, List.mem_dedup]

theorem block_count (rows : List (ℤ × ℤ)) (d m : ℤ) (b : Bool) (lo hi : ℤ)
    (h1 : lo ≤ m) (h2 : m ≤ hi) :
    ((monthRange lo hi).map (fun mo =>
        ({ vmpp := d, month := mo,
           concession_bool := decide ((mo, d) ∈ rows) } : TRow))).count
      ⟨d, m, b⟩ =
      if b = decide ((m, d) ∈ rows) then 1 else 0 := by
  by_cases hb : b = decide ((m, d) ∈ rows)
  · subst hb
    rw [if_pos rfl]
    have hinj : Function.Injective (fun mo : ℤ =>
        ({ vmpp := d, month := mo,
           concession_bool := decide ((mo, d) ∈ rows) } : TRow)) := by
      intro x y hxy
      simpa using congrArg TRow.month hxy
    rw [List.count_map_of_injective _ _ hinj]
    exact List.count_eq_one_of_mem (nodup_monthRange lo hi)
      ((mem_monthRange lo hi m).mpr ⟨h1, h2⟩)
  · rw [if_neg hb, List.count_eq_zero]
    intro hmem
    obtain ⟨mo, hmo, heq⟩ := List.mem_map.mp hmem
    have hm := congrArg TRow.month heq
    have hc := congrArg TRow.concession_bool heq
    simp only at hm hc
    exact hb (by rw [← hc, hm])

theorem block_count_other (rows : List (ℤ × ℤ)) (d v m : ℤ) (b : Bool)
    (lo hi : ℤ) (hne : v ≠ d) :
    ((monthRange lo hi).map (fun mo =>
        ({ vmpp := v, month := mo,
           concession_bool := decide ((mo, v) ∈ rows) } : TRow))).count
      ⟨d, m, b⟩ = 0 := by
  rw [List.count_eq_zero]
  intro hmem
  obtain ⟨mo, hmo, heq⟩ := List.mem_map.mp hmem
  have hv := congrArg TRow.vmpp heq
  simp only at hv
  exact hne hv

theorem timeline_count (rows : List (ℤ × ℤ)) (d m : ℤ) (b : Bool)
    (hd : d ∈ rows.map Prod.snd) (h1 : minMonthIn rows ≤ m)
    (h2 : m ≤ maxMonthIn rows) :
    ((timelineDrugs rows).flatMap (fun v =>
        (monthRange (minMonthIn rows) (maxMonthIn rows)).map (fun mo =>
          ({ vmpp := v, month := mo,
             concession_bool := decide ((mo, v) ∈ rows) } : TRow)))).count
        ⟨d, m, b⟩ =
      if b = decide ((m, d) ∈ rows) then 1 else 0 := by
  rw [count_flatMap]
  exact sum_single _ d _ _ (timelineDrugs_nodup rows)
    ((mem_timelineDrugs rows d).mpr hd)
    (block_count rows d m b _ _ h1 h2)
    (fun x hx hne => block_count_other rows d x m b _ _ hne)

/-- Claim C10: on a duplicate-free input with drug d among its rows, the
dense timeline exists and contains, for every calendar month m of the
global observed range, exactly one row (d, m, flag) - where the flag is
true precisely when (m, d) occurs in the input - and no row carrying the
opposite flag; off-range or duplicate (d, m) rows do not occur. -/
theorem C10_dense_timeline_complete (rows : List (ℤ × ℤ))
    (hnd : rows.Nodup) (d m : ℤ) (hd : d ∈ rows.map Prod.snd)
    (h1 : minMonthIn rows ≤ m) (h2 : m ≤ maxMonthIn rows) :
    ∃ tl, dates_cons_df rows = some tl ∧
      tl.count ⟨d, m, decide ((m, d) ∈ rows)⟩ = 1 ∧
      tl.count ⟨d, m, !decide ((m, d) ∈ rows)⟩ = 0 := by
  refine ⟨(timelineDrugs rows).flatMap (fun v =>
      (monthRange (minMonthIn rows) (maxMonthIn rows)).map (fun mo =>
        ({ vmpp := v, month := mo,
           concession_bool := decide ((mo, v) ∈ rows) } : TRow))),
    ?_, ?_, ?_⟩
  · unfold dates_cons_df
    rw [if_pos hnd]
  · rw [timeline_count rows d m _ hd h1 h2]
    simp
  · rw [timeline_count rows d m _ hd h1 h2]
    simp

/-- Claim C10 witness: for the input with drug 1 flagged in months 0 and
2, the timeline holds exactly one row for (drug 1, month 1), flagged
false since that pair is absent from the input. -/
theorem C10_dense_timeline_witness :
    ∃ tl, dates_cons_df [((0 : ℤ), (1 : ℤ)), (2, 1)] = some tl ∧
      tl.count ⟨1, 1, decide (((1 : ℤ), (1 : ℤ)) ∈
        [((0 : ℤ), (1 : ℤ)), (2, 1)])⟩ = 1 ∧
      tl.count ⟨1, 1, !decide (((1 : ℤ), (1 : ℤ)) ∈
        [((0 : ℤ), (1 : ℤ)), (2, 1)])⟩ = 0 :=
  C10_dense_timeline_complete [(0, 1), (2, 1)] (by decide) 1 1 (by decide)
    (by decide) (by decide)
